import Mathlib

/-!
Shallow embedding of the MMW 2026 event-tracker core (server.js: parseEvents,
parsePrice, and the refresh merge pipeline), together with theorems settling
the specification claims.  JS strings are modelled as lists of characters;
the cheerio DOM traversal is abstracted to the list of table rows with their
cell texts and first hyperlink target, which is exactly what the source reads
from the DOM.  All definitions are executable.
-/

namespace Mmw

/-- JS strings modelled as character lists. -/
abbrev Str := List Char

/-- The JS whitespace class (WhiteSpace plus LineTerminator), as used by both
String.prototype.trim and the regex class backslash-s. -/
def isWS (c : Char) : Bool :=
  c = ' ' || ('\t' ≤ c && c ≤ '\x0d') || c = '\u00A0' || c = '\u1680' ||
  ('\u2000' ≤ c && c ≤ '\u200A') || c = '\u2028' || c = '\u2029' ||
  c = '\u202F' || c = '\u205F' || c = '\u3000' || c = '\uFEFF'

/-- JS LineTerminator characters: the regex dot matches anything but these. -/
def isNL (c : Char) : Bool :=
  c = '\n' || c = '\r' || c = '\u2028' || c = '\u2029'

/-- Model of String.prototype.trim: strip JS whitespace from both ends. -/
def trim (s : Str) : Str :=
  ((s.dropWhile isWS).reverse.dropWhile isWS).reverse

/-- ASCII decimal digit test, the regex class backslash-d. -/
def isDigitChar (c : Char) : Bool := '0' ≤ c && c ≤ '9'

/-- Numeric value of a digit character. -/
def charVal (c : Char) : Nat := c.toNat - 48

/-- Value of a digit run, as parseInt computes it on a pure digit string. -/
def digitsToNat (ds : Str) : Nat :=
  ds.foldl (fun acc c => acc * 10 + charVal c) 0

/-- Digit-building loop of the decimal rendering, structurally recursive on a
fuel bound so it evaluates by plain reduction; the value shrinks by a factor
of ten each step, so fuel n + 1 always suffices. -/
def natToDigitsAux : Nat → Nat → Str → Str
  | 0, _, acc => acc
  | fuel + 1, n, acc =>
      if n < 10 then Nat.digitChar n :: acc
      else natToDigitsAux fuel (n / 10) (Nat.digitChar (n % 10) :: acc)

/-- Decimal rendering of a natural number (the digits of String(n)). -/
def natToDigits (n : Nat) : Str := natToDigitsAux (n + 1) n []

/-- Case-insensitive test for the literal token f-r-e-e at the head of the
string, one position of the regex free with the i flag. -/
def startsWithFree : Str → Bool
  | c1 :: c2 :: c3 :: c4 :: _ =>
      (c1 = 'f' || c1 = 'F') && (c2 = 'r' || c2 = 'R') &&
      (c3 = 'e' || c3 = 'E') && (c4 = 'e' || c4 = 'E')
  | _ => false

/-- Model of the test of the regex free (i flag) against a string: a
case-insensitive occurrence anywhere. -/
def containsFree : Str → Bool
  | [] => false
  | c :: rest => startsWithFree (c :: rest) || containsFree rest

/-- Leftmost match of a dollar sign followed by one or more digits, returning
the value of the captured digit run; the regex dollar-digits in parsePrice. -/
def matchDollar : Str → Option Nat
  | [] => none
  | c :: rest =>
      if c = '$' then
        let ds := rest.takeWhile isDigitChar
        if ds.isEmpty then matchDollar rest else some (digitsToNat ds)
      else matchDollar rest

/-- server.js parsePrice: 0 for the empty string or any string containing a
case-insensitive free, else the integer of the first dollar-digits match,
else 0. -/
def parsePrice (s : Str) : Nat :=
  if s.isEmpty || containsFree s then 0
  else
    match matchDollar s with
    | some n => n
    | none => 0

/-- Meridiem suffix of a matched time token. -/
inductive Mer where
  | am
  | pm
deriving DecidableEq, Repr

/-- Model of the anchored regex digits, optional colon-digits, then am or pm
with the i flag, applied to the raw time text; returns the parseInt value of
the leading digit run and the meridiem.  The optional minutes group is
matched but unused by the source.  Greedy digit runs need no backtracking
here: a digit can extend neither the colon nor the meridiem literal, and when
the colon group consumes input the meridiem cannot start at the colon either,
so the deterministic scan below agrees with the regex engine. -/
def matchStartTime (s : Str) : Option (Nat × Mer) :=
  let ds := s.takeWhile isDigitChar
  if ds.isEmpty then none
  else
    let rest := s.dropWhile isDigitChar
    let rest2 :=
      match rest with
      | ':' :: r => if (r.takeWhile isDigitChar).isEmpty then rest
                    else r.dropWhile isDigitChar
      | _ => rest
    match rest2 with
    | a :: b :: _ =>
        if (a = 'a' || a = 'A') && (b = 'm' || b = 'M') then
          some (digitsToNat ds, Mer.am)
        else if (a = 'p' || a = 'P') && (b = 'm' || b = 'M') then
          some (digitsToNat ds, Mer.pm)
        else none
    | _ => none

/-- The three sequential hour adjustments of parseEvents: add 12 for pm hours
other than 12, map 12am to 0, then shift am hours 1 to 6 by 24. -/
def convHour (h0 : Nat) (mer : Mer) : Nat :=
  let h1 := if mer = Mer.pm ∧ h0 ≠ 12 then h0 + 12 else h0
  let h2 := if mer = Mer.am ∧ h1 = 12 then 0 else h1
  if mer = Mer.am ∧ 1 ≤ h2 ∧ h2 ≤ 6 then h2 + 24 else h2

/-- startHour as parseEvents computes it from the raw time text: 0 when the
time regex does not match, else the converted hour. -/
def startHourOf (timeRaw : Str) : Nat :=
  match matchStartTime timeRaw with
  | none => 0
  | some (h0, mer) => convHour h0 mer

/-- Month-name alternation of the date regex with its MONTH_MAP index; the
twelve literals are pairwise distinct, so alternation order is irrelevant. -/
def monthIdxAt : Str → Option Nat
  | 'J' :: 'a' :: 'n' :: _ => some 0
  | 'F' :: 'e' :: 'b' :: _ => some 1
  | 'M' :: 'a' :: 'r' :: _ => some 2
  | 'A' :: 'p' :: 'r' :: _ => some 3
  | 'M' :: 'a' :: 'y' :: _ => some 4
  | 'J' :: 'u' :: 'n' :: _ => some 5
  | 'J' :: 'u' :: 'l' :: _ => some 6
  | 'A' :: 'u' :: 'g' :: _ => some 7
  | 'S' :: 'e' :: 'p' :: _ => some 8
  | 'O' :: 'c' :: 't' :: _ => some 9
  | 'N' :: 'o' :: 'v' :: _ => some 10
  | 'D' :: 'e' :: 'c' :: _ => some 11
  | _ => none

/-- One anchored attempt of the date regex: month literal, one or more
whitespace characters, one or more digits.  The greedy whitespace run needs no
backtracking because no whitespace character is a digit. -/
def monthDayAt (s : Str) : Option (Nat × Nat) :=
  match monthIdxAt s with
  | none => none
  | some m =>
      let rest := s.drop 3
      if (rest.takeWhile isWS).isEmpty then none
      else
        let r2 := rest.dropWhile isWS
        let ds := r2.takeWhile isDigitChar
        if ds.isEmpty then none else some (m, digitsToNat ds)

/-- Leftmost match of the month-and-day regex over the whole date cell. -/
def findMonthDay : Str → Option (Nat × Nat)
  | [] => none
  | c :: rest =>
      match monthDayAt (c :: rest) with
      | some r => some r
      | none => findMonthDay rest

/-- Days of 2026 (not a leap year) before month index m, so that
monthOffset2026 m + day is the day-of-year of new Date(2026, m, day).
new Date normalizes day overflow by rolling into later months, and its
timestamp is strictly monotone in this day count, so comparing these values
is exactly comparing the Date objects. -/
def monthOffset2026 : Nat → Nat
  | 0 => 0
  | 1 => 31
  | 2 => 59
  | 3 => 90
  | 4 => 120
  | 5 => 151
  | 6 => 181
  | 7 => 212
  | 8 => 243
  | 9 => 273
  | 10 => 304
  | _ => 334

/-- Linear day value of new Date(2026, m, day). -/
def dateVal (m day : Nat) : Nat := monthOffset2026 m + day

/-- RANGE_START, new Date(2026, 2, 18): March 18. -/
def rangeStartVal : Nat := dateVal 2 18

/-- RANGE_END, new Date(2026, 3, 1): April 1. -/
def rangeEndVal : Nat := dateVal 3 1

/-- Month lengths of 2026. -/
def monthLens2026 : List Nat := [31, 28, 31, 30, 31, 30, 31, 31, 30, 31, 30, 31]

/-- Walk the month lengths to split a day-of-year into a month number and a
day-of-month, as getMonth and getDate report for the in-range dates the
source formats (it is applied only after the window check). -/
def splitDoy : List Nat → Nat → Nat → Nat × Nat
  | [], m, doy => (m, doy)
  | len :: rest, m, doy => if doy ≤ len then (m, doy) else splitDoy rest (m + 1) (doy - len)

/-- One-based month and day-of-month of a 2026 day-of-year. -/
def civilOfDoy (doy : Nat) : Nat × Nat := splitDoy monthLens2026 1 doy

/-- String(n).padStart(2, the zero digit). -/
def pad2 (n : Nat) : Str := if n < 10 then '0' :: natToDigits n else natToDigits n

/-- The ISO date key the source builds: 2026 dash mm dash dd. -/
def dayKeyOfDoy (doy : Nat) : Str :=
  let md := civilOfDoy doy
  ('2' :: '0' :: '2' :: '6' :: '-' :: pad2 md.1) ++ '-' :: pad2 md.2

/-- Leftmost match of the parenthesized-run regex: an opening parenthesis,
one or more characters other than the closing parenthesis, then the closing
parenthesis; returns the captured content.  On a failed attempt the scan
resumes at the next character, as the regex engine does. -/
def firstParen : Str → Option Str
  | [] => none
  | '(' :: rest =>
      let content := rest.takeWhile (fun c => c ≠ ')')
      if content.isEmpty then firstParen rest
      else
        match rest.dropWhile (fun c => c ≠ ')') with
        | ')' :: _ => some content
        | _ => firstParen rest
  | _ :: rest => firstParen rest

/-- indexOf of the three-character separator space at-sign space, returned as
the split it induces: the text before the first occurrence and the text after
it (the slice from atIdx + 3). -/
def splitAtSep : Str → Option (Str × Str)
  | ' ' :: '@' :: ' ' :: rest => some ([], rest)
  | c :: rest => (splitAtSep rest).map (fun p => (c :: p.1, p.2))
  | [] => none

/-- The tail of one attempt of the venue-area regex at a fixed position:
optional whitespace, an opening parenthesis, one or more characters other
than the closing parenthesis, the closing parenthesis.  The whitespace run
must end exactly at the opening parenthesis (whitespace is never that
character), so dropWhile models the greedy run with backtracking. -/
def parenAfterWs (t : Str) : Option (Str × Str) :=
  match t.dropWhile isWS with
  | '(' :: u =>
      let content := u.takeWhile (fun c => c ≠ ')')
      if content.isEmpty then none
      else
        match u.dropWhile (fun c => c ≠ ')') with
        | ')' :: v => some (content, v)
        | _ => none
  | _ => none

/-- The lazy one-or-more group of the venue-area regex: grow the venue prefix
one character at a time (the dot never crosses a line terminator) until the
parenthesized area matches; the trailing group takes the remaining characters
up to a line terminator after skipping whitespace. -/
def vamGo (acc : Str) : Str → Option (Str × Str × Str)
  | [] => none
  | c :: rest =>
      if isNL c then none
      else
        match parenAfterWs rest with
        | some (content, after) =>
            some (acc ++ [c], content, (after.dropWhile isWS).takeWhile (fun x => !isNL x))
        | none => vamGo (acc ++ [c]) rest

/-- Model of the anchored venue-area regex of parseEvents: lazy venue text,
optional whitespace, parenthesized area, optional whitespace, trailing genre
text. -/
def venueAreaMatch (s : Str) : Option (Str × Str × Str) := vamGo [] s

/-- String.prototype.split on the comma character. -/
def splitComma : Str → List Str
  | [] => [[]]
  | ',' :: rest => [] :: splitComma rest
  | c :: rest =>
      match splitComma rest with
      | [] => [[c]]
      | p :: ps => (c :: p) :: ps

/-- Lowercasing of a genre tag; the source uses toLowerCase, modelled here on
the ASCII letters the genre tags consist of. -/
def toLowerStr (s : Str) : Str := s.map Char.toLower

/-- The genre list: empty for empty genre text, else split on commas, trim
and lowercase each token, and drop tokens left empty. -/
def genresOf (genreStr : Str) : List Str :=
  if genreStr.isEmpty then []
  else ((splitComma genreStr).map (fun g => toLowerStr (trim g))).filter
    (fun g => !g.isEmpty)

/-- A table row as the cheerio traversal presents it to parseEvents: the text
contents of its td cells in order, and the href of the first anchor inside
the second cell when present. -/
structure Row where
  cells : List Str
  linkHref : Option Str
deriving DecidableEq, Repr

/-- The raw event record parseEvents pushes per kept row. -/
structure RawEvent where
  day : Str
  titlePart : Str
  venue : Str
  area : Str
  genres : List Str
  priceStr : Str
  age : Str
  timeRaw : Str
  startHour : Nat
  link : Str
deriving DecidableEq, Repr

/-- The default age text. -/
def tbaStr : Str := ['T', 'B', 'A']

/-- The record a kept row of parseEvents is turned into, for the matched
month index m and day d of its date cell. -/
def rowRecord (row : Row) (m d : Nat) : RawEvent :=
  let dateCell := trim (row.cells.getD 0 [])
  let dayKey := dayKeyOfDoy (dateVal m d)
  let timeRaw := (firstParen dateCell).getD []
  let startHour := startHourOf timeRaw
  let eventCell := trim (row.cells.getD 1 [])
  let link := row.linkHref.getD []
  let tv : Str × Str :=
    match splitAtSep eventCell with
    | some (l, r) => (trim l, r)
    | none => (eventCell, [])
  let vag : Str × Str × Str :=
    match venueAreaMatch tv.2 with
    | some (v, a, g) => (trim v, trim a, trim g)
    | none => (trim tv.2, [], [])
  let priceStr := trim (row.cells.getD 2 [])
  let ageT := trim (row.cells.getD 3 [])
  { day := dayKey
    titlePart := tv.1
    venue := vag.1
    area := vag.2.1
    genres := genresOf vag.2.2
    priceStr := priceStr
    age := if ageT.isEmpty then tbaStr else ageT
    timeRaw := timeRaw
    startHour := startHour
    link := link }

/-- The per-row body of parseEvents: none models an early return (fewer than
four cells, no month-and-day match in the date cell, or a date outside the
window), some the record pushed onto the result. -/
def parseRow (row : Row) : Option RawEvent :=
  if row.cells.length < 4 then none
  else
    match findMonthDay (trim (row.cells.getD 0 [])) with
    | none => none
    | some (m, d) =>
        if dateVal m d < rangeStartVal ∨ rangeEndVal < dateVal m d then none
        else some (rowRecord row m d)

/-- parseEvents over the rows of the document: kept rows in order. -/
def parseEvents (rows : List Row) : List RawEvent := rows.filterMap parseRow

/-- One element of the parsed enrichment response: an object whose three
expected fields are strings when present.  A missing field (absent, null, or
otherwise unusable through the optional-chaining access) is none. -/
structure EnrichItem where
  name : Option Str
  artists : Option Str
  type : Option Str
deriving DecidableEq, Repr

/-- The merged event object refresh builds per raw record. -/
structure MergedEvent where
  day : Str
  name : Str
  artists : Str
  venue : Str
  area : Str
  startHour : Nat
  timeDisplay : Str
  type : Str
  genres : List Str
  priceRaw : Nat
  priceDisplay : Str
  age : Str
  link : Str
deriving DecidableEq, Repr

/-- The default type text. -/
def nightStr : Str := ['n', 'i', 'g', 'h', 't']

/-- The or-else of the merge: a JS or-expression on an optionally present
string falls back exactly when the field is missing or the empty string
(the only falsy string). -/
def strOr (v : Option Str) (dflt : Str) : Str :=
  match v with
  | some s => if s.isEmpty then dflt else s
  | none => dflt

/-- The per-index body of the merge map in refresh; e is the indexed element
of the enrichment response, none when the index is out of range. -/
def mergeOne (raw : RawEvent) (e : Option EnrichItem) : MergedEvent :=
  { day := raw.day
    name := strOr (e.bind EnrichItem.name) raw.titlePart
    artists := strOr (e.bind EnrichItem.artists) []
    venue := raw.venue
    area := raw.area
    startHour := raw.startHour
    timeDisplay := raw.timeRaw
    type := strOr (e.bind EnrichItem.type) nightStr
    genres := raw.genres
    priceRaw := parsePrice raw.priceStr
    priceDisplay := if raw.priceStr.isEmpty then tbaStr else raw.priceStr
    age := raw.age
    link := raw.link }

/-- The indexed map of refresh: each raw record at running index i is merged
with the enrichment element at the same index. -/
def mergeGo (enriched : List EnrichItem) : Nat → List RawEvent → List MergedEvent
  | _, [] => []
  | i, r :: rs => mergeOne r (enriched.get? i) :: mergeGo enriched (i + 1) rs

/-- rawEvents.map of refresh, positionally merging the enrichment response. -/
def mergeEvents (raws : List RawEvent) (enriched : List EnrichItem) : List MergedEvent :=
  mergeGo enriched 0 raws

/-- Outcome of the source fetch, with the fetched HTML abstracted to the
table rows the cheerio traversal extracts from it; err models a throw caught
by the first try block. -/
inductive FetchResult where
  | ok (rows : List Row)
  | err
deriving DecidableEq, Repr

/-- Outcome of the enrichment call; err models any throw caught by the second
try block, including a JSON parse failure of the response text. -/
inductive EnrichResult where
  | ok (items : List EnrichItem)
  | err
deriving DecidableEq, Repr

/-- The persisted artifact: the events list of the written file, none before
any successful cycle.  The write replaces it wholesale; the timestamp field
of the file is not modelled. -/
abbrev Artifact := Option (List MergedEvent)

/-- The refresh pipeline as a state transformer on the persisted artifact:
abort on fetch failure, abort on an empty parse, abort on enrichment failure,
else write the merged list. -/
def refresh (fetched : FetchResult) (enrich : EnrichResult) (st : Artifact) : Artifact :=
  match fetched with
  | FetchResult.err => st
  | FetchResult.ok rows =>
      let rawEvents := parseEvents rows
      if rawEvents.length = 0 then st
      else
        match enrich with
        | EnrichResult.err => st
        | EnrichResult.ok enriched => some (mergeEvents rawEvents enriched)

/-- A string all of whose characters are JS whitespace. -/
def onlyWS (s : Str) : Bool := s.all isWS

/-- The closed set of event types named by the enrichment contract (the
prompt text and the pipeline test script); the merge code itself never
consults it. -/
def validTypes : List Str :=
  [['p', 'o', 'o', 'l'], ['o', 'u', 't', 'd', 'o', 'o', 'r'], nightStr,
   ['f', 'e', 's', 't', 'i', 'v', 'a', 'l'], ['c', 'r', 'u', 'i', 's', 'e']]

/-- Concrete row whose date is inside the window and whose description cell
has no separator; used to instantiate universally quantified theorems. -/
def rowNoSep : Row :=
  { cells := ["Mar 20 (10pm-2am)".toList, "Warehouse Party".toList,
      "$10".toList, "21+".toList]
    linkHref := none }

/-- The record parseEvents produces for rowNoSep. -/
def recNoSep : RawEvent :=
  { day := "2026-03-20".toList
    titlePart := "Warehouse Party".toList
    venue := []
    area := []
    genres := []
    priceStr := "$10".toList
    age := "21+".toList
    timeRaw := "10pm-2am".toList
    startHour := 22
    link := [] }

/-- Concrete in-window row with a separator and a late start time. -/
def rowLate : Row :=
  { cells := ["Mar 21 (11pm-5am)".toList, "Party @ Club (Miami) techno".toList,
      "Free".toList, "".toList]
    linkHref := none }

/-- The record parseEvents produces for rowLate. -/
def recLate : RawEvent :=
  { day := "2026-03-21".toList
    titlePart := "Party".toList
    venue := "Club".toList
    area := "Miami".toList
    genres := ["techno".toList]
    priceStr := "Free".toList
    age := tbaStr
    timeRaw := "11pm-5am".toList
    startHour := 23
    link := [] }

/-- Concrete row whose date (March 2) is before the window start. -/
def rowEarly : Row :=
  { cells := ["Mar 2 (10pm-2am)".toList, "X @ Y (Z) house".toList,
      "$10".toList, "21+".toList]
    linkHref := none }

/-- Concrete in-window row whose time text starts with the token 13pm. -/
def row13pm : Row :=
  { cells := ["Mar 20 (13pm-2am)".toList, "A @ B (C) d".toList,
      "$5".toList, "18+".toList]
    linkHref := none }

/-- Concrete in-window row whose time text starts with the token 24am. -/
def row24am : Row :=
  { cells := ["Mar 20 (24am-6am)".toList, "A @ B (C) d".toList,
      "$5".toList, "18+".toList]
    linkHref := none }

/-- A concrete raw record for instantiating the merge theorems. -/
def rawSample : RawEvent :=
  { day := "2026-03-27".toList
    titlePart := "Sunrise".toList
    venue := "Space".toList
    area := "Miami".toList
    genres := ["techno".toList]
    priceStr := "$40".toList
    age := "21+".toList
    timeRaw := "10pm-6am".toList
    startHour := 22
    link := "http://a".toList }

/-- A second concrete raw record. -/
def rawSample2 : RawEvent :=
  { day := "2026-03-28".toList
    titlePart := "Dawn".toList
    venue := "Pool Deck".toList
    area := "Miami Beach".toList
    genres := ["house".toList]
    priceStr := "Free".toList
    age := tbaStr
    timeRaw := "12pm-6pm".toList
    startHour := 12
    link := [] }

/-- An enrichment element without a type field. -/
def itemNoType : EnrichItem :=
  { name := some "Sunrise".toList, artists := some "DJ A".toList, type := none }

/-- An enrichment element carrying the valid type pool. -/
def itemPool : EnrichItem :=
  { name := some "Dawn".toList, artists := some [], type := some "pool".toList }

/-- An enrichment element carrying a non-empty type outside the closed set. -/
def itemBanana : EnrichItem :=
  { name := some "Sunrise".toList, artists := some "DJ A".toList,
    type := some "banana".toList }

/-! ## Helper lemmas -/

theorem charVal_digitChar {m : Nat} (hm : m < 10) : charVal (Nat.digitChar m) = m := by
  interval_cases m <;> decide

theorem isDigitChar_digitChar {m : Nat} (hm : m < 10) :
    isDigitChar (Nat.digitChar m) = true := by
  interval_cases m <;> decide

theorem digitsToNat_append_singleton (ds : Str) (c : Char) :
    digitsToNat (ds ++ [c]) = digitsToNat ds * 10 + charVal c := by
  simp [digitsToNat, List.foldl_append]

theorem natToDigitsAux_spec :
    ∀ (fuel n : Nat) (acc : Str), n < fuel →
      ∃ ds : Str, natToDigitsAux fuel n acc = ds ++ acc ∧ ds ≠ [] ∧
        (∀ c ∈ ds, isDigitChar c = true) ∧ digitsToNat ds = n := by
  intro fuel
  induction fuel with
  | zero => intro n acc h; omega
  | succ fuel ih =>
    intro n acc h
    by_cases h10 : n < 10
    · refine ⟨[Nat.digitChar n], by simp [natToDigitsAux, h10], by simp, ?_, ?_⟩
      · intro c hc
        simp only [List.mem_singleton] at hc
        exact hc ▸ isDigitChar_digitChar h10
      · simp [digitsToNat, charVal_digitChar h10]
    · have hfe : n / 10 < fuel := by
        have := Nat.div_lt_self (n := n) (by omega) (show 1 < 10 by omega)
        omega
      obtain ⟨ds, hds, hne, hdig, hval⟩ := ih (n / 10) (Nat.digitChar (n % 10) :: acc) hfe
      refine ⟨ds ++ [Nat.digitChar (n % 10)], ?_, by simp, ?_, ?_⟩
      · simp only [natToDigitsAux, if_neg h10, hds, List.append_assoc, List.singleton_append]
      · intro c hc
        rw [List.mem_append, List.mem_singleton] at hc
        rcases hc with hc | rfl
        · exact hdig c hc
        · exact isDigitChar_digitChar (Nat.mod_lt _ (by omega))
      · rw [digitsToNat_append_singleton, hval, charVal_digitChar (Nat.mod_lt _ (by omega))]
        omega

theorem natToDigits_spec (n : Nat) :
    natToDigits n ≠ [] ∧ (∀ c ∈ natToDigits n, isDigitChar c = true) ∧
      digitsToNat (natToDigits n) = n := by
  obtain ⟨ds, hds, hne, hdig, hval⟩ := natToDigitsAux_spec (n + 1) n [] (by omega)
  rw [List.append_nil] at hds
  rw [natToDigits, hds]
  exact ⟨hne, hdig, hval⟩

theorem natToDigits_ne_nil (n : Nat) : natToDigits n ≠ [] := (natToDigits_spec n).1

theorem natToDigits_digits (n : Nat) : ∀ c ∈ natToDigits n, isDigitChar c = true :=
  (natToDigits_spec n).2.1

theorem digitsToNat_natToDigits (n : Nat) : digitsToNat (natToDigits n) = n :=
  (natToDigits_spec n).2.2

theorem startsWithFree_head {c : Char} {t : Str} (h : startsWithFree (c :: t) = true) :
    c = 'f' ∨ c = 'F' := by
  match t with
  | [] => simp [startsWithFree] at h
  | [_] => simp [startsWithFree] at h
  | [_, _] => simp [startsWithFree] at h
  | x :: y :: z :: rest =>
      simp only [startsWithFree, Bool.and_eq_true, Bool.or_eq_true, decide_eq_true_eq] at h
      exact h.1.1.1

theorem containsFree_eq_false {s : Str} (h : ∀ c ∈ s, ¬(c = 'f' ∨ c = 'F')) :
    containsFree s = false := by
  induction s with
  | nil => rfl
  | cons c rest ih =>
    have h1 : startsWithFree (c :: rest) = false := by
      cases hsf : startsWithFree (c :: rest)
      · rfl
      · exact absurd (startsWithFree_head hsf) (h c (List.mem_cons_self ..))
    simp only [containsFree, h1, Bool.false_or]
    exact ih (fun x hx => h x (List.mem_cons_of_mem _ hx))

theorem matchDollar_eq_none {s : Str} (h : ∀ c ∈ s, ¬ c = '$') :
    matchDollar s = none := by
  induction s with
  | nil => rfl
  | cons c rest ih =>
    simp only [matchDollar, if_neg (h c (List.mem_cons_self ..))]
    exact ih (fun x hx => h x (List.mem_cons_of_mem _ hx))

theorem takeWhile_eq_self {p : Char → Bool} {s : Str} (h : ∀ c ∈ s, p c = true) :
    s.takeWhile p = s := by
  induction s with
  | nil => rfl
  | cons c rest ih =>
    rw [List.takeWhile_cons, if_pos (h c (List.mem_cons_self ..))]
    rw [ih (fun x hx => h x (List.mem_cons_of_mem _ hx))]

theorem matchDollar_dollar_digits {ds : Str} (hne : ds ≠ [])
    (hd : ∀ c ∈ ds, isDigitChar c = true) :
    matchDollar ('$' :: ds) = some (digitsToNat ds) := by
  have hemp : (ds.takeWhile isDigitChar).isEmpty = false := by
    rw [takeWhile_eq_self hd]
    simpa [List.isEmpty_iff] using hne
  simp only [matchDollar, hemp, takeWhile_eq_self hd]
  simp only [List.isEmpty_eq_true]
  rw [if_pos trivial, if_neg hne]

theorem parsePrice_dollar_digits (n : Nat) :
    parsePrice ('$' :: natToDigits n) = n := by
  have hfree : containsFree ('$' :: natToDigits n) = false := by
    refine containsFree_eq_false ?_
    intro c hc hor
    rw [List.mem_cons] at hc
    rcases hc with rfl | hc
    · rcases hor with h | h <;> simp at h
    · have := natToDigits_digits n c hc
      rcases hor with rfl | rfl <;> simp [isDigitChar] at this
  have hmd := matchDollar_dollar_digits (natToDigits_ne_nil n) (natToDigits_digits n)
  simp only [parsePrice, List.isEmpty_cons, hfree, Bool.or_false, Bool.false_eq_true,
    if_false, hmd, digitsToNat_natToDigits]

theorem mergeGo_length (enriched : List EnrichItem) :
    ∀ (raws : List RawEvent) (j : Nat), (mergeGo enriched j raws).length = raws.length := by
  intro raws
  induction raws with
  | nil => intro j; rfl
  | cons r rs ih => intro j; simp [mergeGo, ih]

theorem mergeGo_get? (enriched : List EnrichItem) :
    ∀ (raws : List RawEvent) (j i : Nat),
      (mergeGo enriched j raws).get? i =
        (raws.get? i).map (fun r => mergeOne r (enriched.get? (j + i))) := by
  intro raws
  induction raws with
  | nil => intro j i; simp [mergeGo]
  | cons r rs ih =>
    intro j i
    cases i with
    | zero => simp [mergeGo]
    | succ i =>
        show (mergeGo enriched (j + 1) rs).get? i =
          (rs.get? i).map (fun r => mergeOne r (enriched.get? (j + (i + 1))))
        rw [ih (j + 1) i]
        have h : j + 1 + i = j + (i + 1) := by omega
        rw [h]

theorem mergeEvents_get? (raws : List RawEvent) (enriched : List EnrichItem) (i : Nat) :
    (mergeEvents raws enriched).get? i =
      (raws.get? i).map (fun r => mergeOne r (enriched.get? i)) := by
  simpa using mergeGo_get? enriched raws 0 i

theorem parseRow_eq_some {row : Row} {r : RawEvent} (hp : parseRow row = some r) :
    ∃ m d, findMonthDay (trim (row.cells.getD 0 [])) = some (m, d) ∧ r = rowRecord row m d := by
  unfold parseRow at hp
  split at hp
  · exact absurd hp (by simp)
  · split at hp
    · exact absurd hp (by simp)
    · next m d heq =>
      split at hp
      · exact absurd hp (by simp)
      · exact ⟨m, d, heq, (Option.some.injEq _ _ ▸ hp).symm⟩

theorem rowRecord_startHour (row : Row) (m d : Nat) :
    (rowRecord row m d).startHour = startHourOf (rowRecord row m d).timeRaw := rfl

theorem convHour_bound {h : Nat} (hle : h ≤ 12) (m : Mer) :
    (convHour h m ≤ 23 ∨ (25 ≤ convHour h m ∧ convHour h m ≤ 30)) ∧
      convHour h m ≠ 24 := by
  cases m <;> interval_cases h <;> decide

/-! ## Claim theorems -/

/-- C1 (amended by the counterexample below to matched hours of the 12-hour
clock, at most 12): for every time-range string, startHour equals the
reference conversion of its leading hour and meridiem token — am hours 1 to 6
yield hour mod 12 plus 24 (so 25 to 30), 12am yields 0, pm hours 1 to 11
yield hour plus 12, 12pm yields 12, every other matched hour at most 12 stays
in 0 to 23, and a string with no match yields 0. -/
theorem startHour_reference_conversion (s : Str) :
    (matchStartTime s = none → startHourOf s = 0) ∧
    (∀ h m, matchStartTime s = some (h, m) → h ≤ 12 →
      ((m = Mer.am ∧ 1 ≤ h ∧ h ≤ 6) →
        startHourOf s = h % 12 + 24 ∧ 25 ≤ startHourOf s ∧ startHourOf s ≤ 30) ∧
      ((m = Mer.am ∧ h = 12) → startHourOf s = 0) ∧
      ((m = Mer.pm ∧ 1 ≤ h ∧ h ≤ 11) → startHourOf s = h + 12) ∧
      ((m = Mer.pm ∧ h = 12) → startHourOf s = 12) ∧
      ((¬(m = Mer.am ∧ 1 ≤ h ∧ h ≤ 6) ∧ h ≠ 12 ∧ ¬(m = Mer.pm ∧ 1 ≤ h ∧ h ≤ 11)) →
        startHourOf s ≤ 23)) := by
  constructor
  · intro h
    simp [startHourOf, h]
  · intro h m hm hle
    have hs : startHourOf s = convHour h m := by simp [startHourOf, hm]
    cases m <;> interval_cases h <;> simp_all [convHour]

/-- Witness for C1: on the string 2am-10am the matched token is 2am and the
computed hour is 2 mod 12 plus 24. -/
theorem startHour_reference_conversion_witness :
    matchStartTime ("2am-10am".toList) = some (2, Mer.am) ∧
    startHourOf ("2am-10am".toList) = 2 % 12 + 24 :=
  ⟨by decide,
    (((startHour_reference_conversion ("2am-10am".toList)).2 2 Mer.am (by decide)
      (by decide)).1 (by decide)).1⟩

/-- Counterexample to C1 as stated: the time text 13pm-2am matches the am/pm
pattern with hour 13, which is none of the enumerated cases, yet the computed
startHour is 25, not in 0 to 23; the row carrying it is accepted end to end
by parseEvents. -/
theorem startHour_reference_conversion_cex :
    matchStartTime ("13pm-2am".toList) = some (13, Mer.pm) ∧
    ¬(1 ≤ 13 ∧ 13 ≤ 11) ∧ (13 : Nat) ≠ 12 ∧
    (parseEvents [row13pm]).map (fun r => r.timeRaw) = ["13pm-2am".toList] ∧
    (parseEvents [row13pm]).map (fun r => r.startHour) = [25] ∧
    ¬ startHourOf ("13pm-2am".toList) ≤ 23 := by
  decide

/-- C6: parsePrice yields 0 on the empty string, on whitespace-only strings
and on strings containing a case-insensitive free token; otherwise it yields
the integer of the first dollar-digits match, and 0 when no such substring
exists; the result is a natural number, hence nonnegative. -/
theorem parsePrice_contract (s : Str) :
    ((s = [] ∨ onlyWS s = true ∨ containsFree s = true) → parsePrice s = 0) ∧
    (¬(s = [] ∨ containsFree s = true) →
      (∀ n, matchDollar s = some n → parsePrice s = n) ∧
      (matchDollar s = none → parsePrice s = 0)) ∧
    0 ≤ parsePrice s := by
  refine ⟨?_, ?_, Nat.zero_le _⟩
  · rintro (rfl | hws | hf)
    · rfl
    · have hws' := List.all_eq_true.mp hws
      have hnd : matchDollar s = none := by
        refine matchDollar_eq_none ?_
        intro c hc hceq
        have hw := hws' c hc
        rw [hceq] at hw
        exact absurd hw (by decide)
      simp [parsePrice, hnd]
    · simp [parsePrice, hf]
  · intro hno
    have hne : s ≠ [] := fun h => hno (Or.inl h)
    have hemp : s.isEmpty = false := by simpa [List.isEmpty_iff] using hne
    have hf : containsFree s = false := by
      cases h : containsFree s
      · rfl
      · exact absurd (Or.inr h) hno
    constructor
    · intro n hn
      simp [parsePrice, hemp, hf, hn]
    · intro hn
      simp [parsePrice, hemp, hf, hn]

/-- Witness for C6: a whitespace-only string yields 0, and a string whose
first dollar-digits match is 7 yields 7. -/
theorem parsePrice_contract_witness :
    parsePrice ("  ".toList) = 0 ∧ parsePrice ("$7 adv".toList) = 7 :=
  ⟨(parsePrice_contract ("  ".toList)).1 (Or.inr (Or.inl (by decide))),
    ((parsePrice_contract ("$7 adv".toList)).2.1 (by decide)).1 7 (by decide)⟩

/-- C8: parsePrice is idempotent through the string form of its output — for
every string s, parsePrice of a dollar sign followed by the decimal digits of
parsePrice s equals parsePrice s. -/
theorem parsePrice_idempotent (s : Str) :
    parsePrice ('$' :: natToDigits (parsePrice s)) = parsePrice s :=
  parsePrice_dollar_digits (parsePrice s)

/-- C5: a table row whose date cell has no recognizable month-and-day token,
or whose recognized token denotes (after the date normalization new Date
performs) a calendar date strictly before the window start or strictly after
the window end, contributes no record to the output of parseEvents, whatever
its other cells hold; rejection is silent and parseEvents still returns a
list. -/
theorem parse_rejects_out_of_window (row : Row)
    (hd : match findMonthDay (trim (row.cells.getD 0 [])) with
          | none => True
          | some (m, d) => dateVal m d < rangeStartVal ∨ rangeEndVal < dateVal m d) :
    parseRow row = none ∧
    ∀ pre post, parseEvents (pre ++ row :: post) = parseEvents (pre ++ post) := by
  have h1 : parseRow row = none := by
    unfold parseRow
    split
    · rfl
    · split
      · rfl
      · next m d heq =>
          rw [heq] at hd
          exact if_pos hd
  refine ⟨h1, ?_⟩
  intro pre post
  simp [parseEvents, List.filterMap_append, List.filterMap_cons, h1]

/-- Witness for C5: the row dated March 2 (before the window start) yields no
record and drops out of the batch. -/
theorem parse_rejects_out_of_window_witness :
    parseRow rowEarly = none ∧
    parseEvents ([] ++ rowEarly :: []) = parseEvents ([] ++ []) :=
  ⟨(parse_rejects_out_of_window rowEarly
      (by show dateVal 2 2 < rangeStartVal ∨ rangeEndVal < dateVal 2 2; decide)).1,
    (parse_rejects_out_of_window rowEarly
      (by show dateVal 2 2 < rangeStartVal ∨ rangeEndVal < dateVal 2 2; decide)).2 [] []⟩

/-- C7: a kept row whose description cell contains no space at-sign space
separator yields titlePart equal to the full trimmed cell text and empty
venue, area and genres. -/
theorem no_separator_titlePart (row : Row) (r : RawEvent)
    (hp : parseRow row = some r)
    (hs : splitAtSep (trim (row.cells.getD 1 [])) = none) :
    r.titlePart = trim (row.cells.getD 1 []) ∧ r.venue = [] ∧ r.area = [] ∧
      r.genres = [] := by
  obtain ⟨m, d, hfind, rfl⟩ := parseRow_eq_some hp
  simp only [rowRecord]
  rw [hs]
  exact ⟨rfl, rfl, rfl, rfl⟩

/-- Witness for C7: the row whose description cell is a bare title with no
separator produces a record with that title and empty venue, area and
genres. -/
theorem no_separator_titlePart_witness :
    recNoSep.titlePart = trim (rowNoSep.cells.getD 1 []) ∧ recNoSep.venue = [] ∧
      recNoSep.area = [] ∧ recNoSep.genres = [] :=
  no_separator_titlePart rowNoSep recNoSep (by decide) (by decide)

/-- C9 (amended by the counterexample below to records whose matched hour
token is at most 12): every record parseEvents produces has startHour in 0 to
23 or in 25 to 30, and in particular never 24. -/
theorem startHour_range_invariant (rows : List Row) (r : RawEvent)
    (hmem : r ∈ parseEvents rows)
    (hh : match matchStartTime r.timeRaw with
          | none => True
          | some (h, _) => h ≤ 12) :
    (r.startHour ≤ 23 ∨ (25 ≤ r.startHour ∧ r.startHour ≤ 30)) ∧
      r.startHour ≠ 24 := by
  obtain ⟨row, hrow, hp⟩ := List.mem_filterMap.mp hmem
  obtain ⟨m, d, hfind, rfl⟩ := parseRow_eq_some hp
  rw [rowRecord_startHour]
  cases hmt : matchStartTime (rowRecord row m d).timeRaw with
  | none => simp [startHourOf, hmt]
  | some hm =>
      obtain ⟨h, mer⟩ := hm
      rw [hmt] at hh
      have hh' : h ≤ 12 := hh
      have hconv : startHourOf (rowRecord row m d).timeRaw = convHour h mer := by
        simp [startHourOf, hmt]
      rw [hconv]
      exact convHour_bound hh' mer

/-- Witness for C9: the record of the 11pm row is produced by parseEvents,
its matched hour is at most 12, and its startHour 23 is in range and not
24. -/
theorem startHour_range_invariant_witness :
    (recLate.startHour ≤ 23 ∨ (25 ≤ recLate.startHour ∧ recLate.startHour ≤ 30)) ∧
      recLate.startHour ≠ 24 :=
  startHour_range_invariant [rowLate] recLate (by decide)
    (by show (11 : Nat) ≤ 12; decide)

/-- Counterexample to C9 as stated: a row whose time text starts with the
token 24am is accepted by parseEvents and yields startHour 24, which is
outside 0 to 23 and 25 to 30. -/
theorem startHour_range_invariant_cex :
    (parseEvents [row24am]).map (fun r => r.startHour) = [24] ∧
    ¬((24 : Nat) ≤ 23 ∨ (25 ≤ (24 : Nat) ∧ (24 : Nat) ≤ 30)) := by
  decide

/-- C2 (amended by the counterexample below: the fallback fires on a missing
or empty type, not on every value outside the closed set): if the enrichment
element at index k of an in-range index has a missing or empty type, the
merged output at k has type night, and any index whose enrichment supplies a
non-empty type string keeps exactly that value. -/
theorem merge_type_fallback (raws : List RawEvent) (enriched : List EnrichItem)
    (k : Nat) (hk : raws.get? k ≠ none)
    (ht : (enriched.get? k).bind EnrichItem.type = none ∨
          (enriched.get? k).bind EnrichItem.type = some []) :
    ((mergeEvents raws enriched).get? k).map (fun x => x.type) = some nightStr ∧
    ∀ j s, raws.get? j ≠ none →
      (enriched.get? j).bind EnrichItem.type = some s → s ≠ [] →
      ((mergeEvents raws enriched).get? j).map (fun x => x.type) = some s := by
  constructor
  · cases hr : raws.get? k with
    | none => exact absurd hr hk
    | some r =>
        rw [mergeEvents_get? raws enriched k, hr]
        show some (strOr ((enriched.get? k).bind EnrichItem.type) nightStr) =
          some nightStr
        rcases ht with h | h <;> rw [h] <;> rfl
  · intro j s hj hjt hsne
    cases hr : raws.get? j with
    | none => exact absurd hr hj
    | some r =>
        rw [mergeEvents_get? raws enriched j, hr]
        show some (strOr ((enriched.get? j).bind EnrichItem.type) nightStr) = some s
        rw [hjt]
        simp only [strOr]
        rw [if_neg (by simpa [List.isEmpty_iff] using hsne)]

/-- Witness for C2: with an enrichment response whose first element lacks a
type and whose second supplies pool, the merged types are night and pool. -/
theorem merge_type_fallback_witness :
    ((mergeEvents [rawSample, rawSample2] [itemNoType, itemPool]).get? 0).map
      (fun x => x.type) = some nightStr ∧
    ((mergeEvents [rawSample, rawSample2] [itemNoType, itemPool]).get? 1).map
      (fun x => x.type) = some ("pool".toList) :=
  ⟨(merge_type_fallback [rawSample, rawSample2] [itemNoType, itemPool] 0
      (by decide) (Or.inl (by decide))).1,
    (merge_type_fallback [rawSample, rawSample2] [itemNoType, itemPool] 0
      (by decide) (Or.inl (by decide))).2 1 ("pool".toList) (by decide) (by decide)
      (by decide)⟩

/-- Counterexample to C2 as stated: an enrichment element whose type is the
non-empty string banana — outside the closed type set — is kept verbatim by
the merge instead of falling back to night. -/
theorem merge_type_claim_cex :
    ¬ ("banana".toList ∈ validTypes) ∧
    ((mergeEvents [rawSample] [itemBanana]).get? 0).map (fun x => x.type) =
      some ("banana".toList) ∧
    "banana".toList ≠ nightStr := by
  decide

/-- C4: for a raw batch and an enrichment response of the same length, the
merge output has the batch length, and the record at every output index i is
built by the merge body from the raw record at i and the enrichment element
at i, preserving the original order. -/
theorem merge_length_order (raws : List RawEvent) (enriched : List EnrichItem)
    (_hlen : enriched.length = raws.length) :
    (mergeEvents raws enriched).length = raws.length ∧
    ∀ i, (mergeEvents raws enriched).get? i =
      (raws.get? i).map (fun r => mergeOne r (enriched.get? i)) :=
  ⟨mergeGo_length enriched raws 0, fun i => mergeEvents_get? raws enriched i⟩

/-- Witness for C4: a one-element batch with a one-element response merges to
one record built from the pair at index 0. -/
theorem merge_length_order_witness :
    (mergeEvents [rawSample] [itemPool]).length = [rawSample].length ∧
    (mergeEvents [rawSample] [itemPool]).get? 0 =
      ([rawSample].get? 0).map (fun r => mergeOne r ([itemPool].get? 0)) :=
  ⟨(merge_length_order [rawSample] [itemPool] (by decide)).1,
    (merge_length_order [rawSample] [itemPool] (by decide)).2 0⟩

/-- C10: for the same raw batch under any two enrichment responses the merged
records agree at every index on day, venue, area, startHour, timeDisplay,
genres, priceRaw, priceDisplay, age and link — these are copied or derived
from the raw record alone, so the response can influence only name, artists
and type. -/
theorem merge_frame_fields (raws : List RawEvent) (e1 e2 : List EnrichItem)
    (i : Nat) :
    ((mergeEvents raws e1).get? i).map (fun x => x.day) =
      ((mergeEvents raws e2).get? i).map (fun x => x.day) ∧
    ((mergeEvents raws e1).get? i).map (fun x => x.venue) =
      ((mergeEvents raws e2).get? i).map (fun x => x.venue) ∧
    ((mergeEvents raws e1).get? i).map (fun x => x.area) =
      ((mergeEvents raws e2).get? i).map (fun x => x.area) ∧
    ((mergeEvents raws e1).get? i).map (fun x => x.startHour) =
      ((mergeEvents raws e2).get? i).map (fun x => x.startHour) ∧
    ((mergeEvents raws e1).get? i).map (fun x => x.timeDisplay) =
      ((mergeEvents raws e2).get? i).map (fun x => x.timeDisplay) ∧
    ((mergeEvents raws e1).get? i).map (fun x => x.genres) =
      ((mergeEvents raws e2).get? i).map (fun x => x.genres) ∧
    ((mergeEvents raws e1).get? i).map (fun x => x.priceRaw) =
      ((mergeEvents raws e2).get? i).map (fun x => x.priceRaw) ∧
    ((mergeEvents raws e1).get? i).map (fun x => x.priceDisplay) =
      ((mergeEvents raws e2).get? i).map (fun x => x.priceDisplay) ∧
    ((mergeEvents raws e1).get? i).map (fun x => x.age) =
      ((mergeEvents raws e2).get? i).map (fun x => x.age) ∧
    ((mergeEvents raws e1).get? i).map (fun x => x.link) =
      ((mergeEvents raws e2).get? i).map (fun x => x.link) := by
  rw [mergeEvents_get? raws e1 i, mergeEvents_get? raws e2 i]
  cases raws.get? i with
  | none => exact ⟨rfl, rfl, rfl, rfl, rfl, rfl, rfl, rfl, rfl, rfl⟩
  | some r => exact ⟨rfl, rfl, rfl, rfl, rfl, rfl, rfl, rfl, rfl, rfl⟩

/-- C3: a refresh cycle aborted by a fetch failure, by an empty parse result,
or by an enrichment failure (the second try block catches any throw there,
including a JSON parse failure of the response) returns without performing
the write, so the persisted artifact is unchanged by that cycle. -/
theorem refresh_abort_preserves_artifact (st : Artifact) (e : EnrichResult)
    (rows : List Row) :
    refresh FetchResult.err e st = st ∧
    (parseEvents rows = [] → refresh (FetchResult.ok rows) e st = st) ∧
    refresh (FetchResult.ok rows) EnrichResult.err st = st := by
  refine ⟨rfl, ?_, ?_⟩
  · intro h
    simp [refresh, h]
  · simp only [refresh]
    split <;> rfl

/-- Witness for C3: with no previous artifact replaced, each of the three
abort shapes returns the prior state. -/
theorem refresh_abort_preserves_artifact_witness :
    refresh FetchResult.err (EnrichResult.ok []) (some []) = some [] ∧
    refresh (FetchResult.ok []) (EnrichResult.ok []) (some []) = some [] ∧
    refresh (FetchResult.ok []) EnrichResult.err (some []) = some [] :=
  ⟨(refresh_abort_preserves_artifact (some []) (EnrichResult.ok []) []).1,
    (refresh_abort_preserves_artifact (some []) (EnrichResult.ok []) []).2.1 rfl,
    (refresh_abort_preserves_artifact (some []) (EnrichResult.ok []) []).2.2⟩

end Mmw
